import Mathlib

/-!
Verification of the Indoor-Navigation repository's specification claims
against a shallow embedding of its TypeScript source.

Sections:
1. analyze-map endpoint node processing (src/app/api/admin/analyze-map/route.ts)
2. summaryService client cache (src/services/summaryService.ts)
3. navigation summary POST endpoint (the summary API route)
4. maps [id] route handlers GET and DELETE, and imageUtils (src/lib/imageUtils.ts)
5. Single-floor pathfinder, modelled from the spec (the pathfinder source is
   not part of the provided files; only its caller is)
6. Navigation session state machine, modelled from the spec
-/

namespace IndoorNav

/-! ## Section 1: analyze-map node processing

Embeds the `processedNodes` mapping of
src/src/app/api/admin/analyze-map/route.ts lines 107-133: each raw item
from the AI response is turned into a node; a valid `box_2d` (an array of
exactly 4 numbers [ymin, xmin, ymax, xmax]) yields the box center scaled
from the 0-1000 grid to the 0-100 space; anything else yields the default
position (50, 50).  `parseFloat(v.toFixed(2))` is modelled over exact
rationals as rounding 100*v to the nearest integer and dividing by 100. -/

/-- The `box_2d` field of a raw AI-response item: it may be absent (or another
falsy value), a truthy non-array value, or an array of numbers. -/
inductive BoxField
  | absent
  | nonArray
  | elems (l : List ℚ)
deriving DecidableEq

/-- A raw item of the AI digitization response: a label plus its `box_2d`. -/
structure RawItem where
  label : String
  box : BoxField
deriving DecidableEq

/-- A processed node emitted by the analyze-map endpoint. -/
structure ProcessedNode where
  label : String
  x : ℚ
  y : ℚ
deriving DecidableEq

/-- `parseFloat(v.toFixed(2))` over exact rationals: round to two decimals. -/
def round2 (q : ℚ) : ℚ := (round (100 * q) : ℤ) / 100

/-- Whether `box_2d` passes the endpoint's validity check
`item.box_2d && Array.isArray(item.box_2d) && item.box_2d.length === 4`. -/
def validBox : BoxField → Bool
  | .elems l => l.length == 4
  | _ => false

/-- One step of the `processedNodes` map: center of a valid box, scaled from
the 0-1000 grid to 0-100; default (50, 50) otherwise. -/
def processNode (item : RawItem) : ProcessedNode :=
  match item.box with
  | .elems [ymin, xmin, ymax, xmax] =>
    ⟨item.label, round2 ((xmin + xmax) / 2 / 10), round2 ((ymin + ymax) / 2 / 10)⟩
  | _ => ⟨item.label, round2 50, round2 50⟩

/-- The endpoint's `rawNodes.map(...)` over the whole response. -/
def processedNodes (items : List RawItem) : List ProcessedNode :=
  items.map processNode

/-! ## Section 2: summaryService.fetchSummary

Embeds src/src/services/summaryService.ts.  The module-level
`summaryCache : Map<string,string>` is modelled as an association list
threaded through the call; the `fetch` of /api/navigation/summary is an
oracle argument describing the collaborator's outcome.  The returned
`FetchOutcome` also records whether a network request was issued. -/

/-- JavaScript `String.prototype.trim()`: strip whitespace at both ends
(expressed over the character list so that it evaluates). -/
def jsTrim (s : String) : String :=
  String.mk (((s.data.dropWhile Char.isWhitespace).reverse.dropWhile
    Char.isWhitespace).reverse)

/-- A path node as used by the summary service (only `id` feeds the cache
key; `name` is carried along in the request body). -/
structure SNode where
  id : String
  name : String
deriving DecidableEq

/-- The in-memory summary cache (a `Map` keyed by strings). -/
abbrev SummaryCache := List (String × String)

/-- `summaryCache.get(key)` (after `has` succeeded) / assoc-list lookup. -/
def cacheLookup (c : SummaryCache) (k : String) : Option String :=
  match c.find? (fun e => e.1 == k) with
  | some e => some e.2
  | none => none

/-- `summaryCache.set(key, value)`. -/
def cacheInsert (c : SummaryCache) (k v : String) : SummaryCache :=
  (k, v) :: c

/-- Outcome of the `fetch` to /api/navigation/summary as observed by the
client: a non-OK HTTP response, a thrown error (network failure or invalid
JSON), or a parsed payload `{ success, summary, error }` where `summary` is
`some s` exactly when the field is a string. -/
inductive SummaryNetResult
  | httpError (status : Nat)
  | thrown
  | payload (success : Bool) (summary : Option String) (error : Option String)
deriving DecidableEq

/-- The cache key `` `${mapId}_${nodeIds}_${isLastMap ? "final" : "intermediate"}` ``
with `nodeIds = nodes.map(n => n.id).join("-")`. -/
def summaryCacheKey (mapId : String) (nodes : List SNode) (isLastMap : Bool) : String :=
  mapId ++ ("_") ++ String.intercalate ("-") (nodes.map SNode.id) ++ ("_") ++
    (if isLastMap then ("final") else ("intermediate"))

/-- Result of one `fetchSummary` call: the returned string (or null), the
cache afterwards, and whether a network request was issued. -/
structure FetchOutcome where
  result : Option String
  cache : SummaryCache
  requested : Bool
deriving DecidableEq

/-- The network part of `fetchSummary` after a cache miss: null and an
unchanged cache on a non-OK response, a thrown error, a non-string or
unsuccessful or empty payload; the trimmed summary, newly cached, on
success. -/
def handleNetResult (cache : SummaryCache) (key : String)
    (net : SummaryNetResult) : FetchOutcome :=
  match net with
  | .httpError _ => ⟨none, cache, true⟩
  | .thrown => ⟨none, cache, true⟩
  | .payload success summary _ =>
    match summary with
    | some s =>
      if success = true ∧ jsTrim s ≠ "" then
        ⟨some (jsTrim s), cacheInsert cache key (jsTrim s), true⟩
      else ⟨none, cache, true⟩
    | none => ⟨none, cache, true⟩

/-- `summaryService.fetchSummary` (src/src/services/summaryService.ts
lines 15-64).  Returns null for fewer than 2 nodes; serves from cache when
the key is present (`get(key) || null` turns an empty cached string into
null); otherwise fetches, caching only a successful, nonempty, trimmed
summary, and returns null on every failure. -/
def fetchSummary (cache : SummaryCache) (nodes : List SNode) (mapId : String)
    (isLastMap : Bool) (net : SummaryNetResult) : FetchOutcome :=
  if nodes.length < 2 then ⟨none, cache, false⟩
  else
    match cacheLookup cache (summaryCacheKey mapId nodes isLastMap) with
    | some v => ⟨if v = "" then none else some v, cache, false⟩
    | none => handleNetResult cache (summaryCacheKey mapId nodes isLastMap) net

/-- A collaborator failure as seen by `fetchSummary`: non-OK response,
thrown fetch/parse error, or a payload that is unsuccessful, has no string
summary, or has an empty (after trim) summary. -/
def isNetFailure : SummaryNetResult → Prop
  | .httpError _ => True
  | .thrown => True
  | .payload success summary _ =>
    ¬ (success = true ∧ ∃ s, summary = some s ∧ jsTrim s ≠ "")

/-! ## Section 3: navigation summary POST endpoint

Embeds the POST handler of the /api/navigation/summary route (provided as
an unnamed source file of the repository).  The request body's `nodes`
field is modelled by `NodesField`; the Gemini text-generation call is an
oracle argument. -/

/-- The `nodes` field of the parsed request body: absent or another falsy
value (`!nodes`), a truthy non-array value, or an array. -/
inductive NodesField
  | absent
  | nonArray
  | arr (nodes : List SNode)
deriving DecidableEq

/-- Outcome of the Gemini `generateContent` call for the summary prompt. -/
inductive GenOutcome
  | text (s : String)
  | thrown
deriving DecidableEq

/-- A JSON response of the summary endpoint. -/
structure ApiResponse where
  status : Nat
  success : Bool
  summary : Option String
  error : Option String
deriving DecidableEq

/-- The summary endpoint's handling of an array-valued `nodes` field: 400
when it is shorter than 2 elements, 500 for a thrown model error, 502 for
an empty model answer, 200 with the trimmed summary otherwise. -/
def summaryPOSTWithNodes (nodes : List SNode) (gen : GenOutcome) : ApiResponse :=
  if nodes.length < 2 then
    ⟨400, false, none, some ("Invalid path nodes provided")⟩
  else
    match gen with
    | .thrown => ⟨500, false, none, some ("Failed to generate summary")⟩
    | .text s =>
      if jsTrim s = "" then
        ⟨502, false, none, some ("Empty summary response from model")⟩
      else ⟨200, true, some (jsTrim s), none⟩

/-- The summary endpoint's POST handler: 500 without an API key, 400 for a
missing or non-array `nodes` field, then the array handling. -/
def summaryPOST (apiKey : Option String) (nodesField : NodesField)
    (gen : GenOutcome) : ApiResponse :=
  if apiKey = none ∨ apiKey = some ("") then
    ⟨500, false, none, some ("GEMINI_API_KEY is not set")⟩
  else
    match nodesField with
    | .absent => ⟨400, false, none, some ("Invalid path nodes provided")⟩
    | .nonArray => ⟨400, false, none, some ("Invalid path nodes provided")⟩
    | .arr nodes => summaryPOSTWithNodes nodes gen

/-- A request body whose `nodes` field fails the endpoint's validation
`!nodes || !Array.isArray(nodes) || nodes.length < 2`. -/
def invalidNodesField : NodesField → Prop
  | .absent => True
  | .nonArray => True
  | .arr nodes => nodes.length < 2

/-! ## Section 4: maps [id] route (GET and DELETE) and imageUtils

Embeds src/src/app/api/maps/[id]/route.ts and src/src/lib/imageUtils.ts.
The Firestore `maps` collection is a list of documents, each with a
storage-generated `docId` and its stored data; `where("id","==",id)` is a
filter on the application-level `id` field, `collection.doc(id)` a lookup
by `docId`.  The `map_images` collection is a list of image document ids. -/

/-- Stored map data: the application-level `id` field (absent when the
document predates it), a display name, and the image reference. -/
structure MData where
  idField : Option String
  name : String
  imageUrl : Option String
deriving DecidableEq

/-- A document of the `maps` collection: storage-generated id plus data.
`data = none` models `doc.data()` being unavailable. -/
structure MapDoc where
  docId : String
  data : Option MData
deriving DecidableEq

/-- A response of the GET handler: status, success flag and (for 200) the
`id` value of the returned data. -/
structure GetResponse where
  status : Nat
  success : Bool
  dataId : Option String
deriving DecidableEq

/-- Whether a document matches the `where("id","==",id)` query. -/
def matchesIdField (id : String) (doc : MapDoc) : Bool :=
  match doc.data with
  | some m => m.idField == some id
  | none => false

/-- `{ ...data, id: data.id || doc.id }`: the returned id is the data's
`id` field when truthy, else the storage document id. -/
def effectiveId (m : MData) (docId : String) : String :=
  match m.idField with
  | some s => if s = "" then docId else s
  | none => docId

/-- The 200/500 response built from a found document: 500 when its data
is missing, otherwise the data with the effective id. -/
def docResponse (doc : MapDoc) : GetResponse :=
  match doc.data with
  | none => ⟨500, false, none⟩
  | some m => ⟨200, true, some (effectiveId m doc.docId)⟩

/-- The GET handler's fallback lookup by storage document id. -/
def getMapFallback (docs : List MapDoc) (id : String) : GetResponse :=
  match docs.find? (fun d => d.docId == id) with
  | none => ⟨404, false, none⟩
  | some doc => docResponse doc

/-- GET /api/maps/[id] (route.ts lines 14-73): query by the application
`id` field first; if that snapshot is empty, fall back to the storage
document id; 404 only when both fail; 500 when a found document carries no
data. -/
def getMap (docs : List MapDoc) (id : String) : GetResponse :=
  match (docs.filter (matchesIdField id)).head? with
  | some doc => docResponse doc
  | none => getMapFallback docs id

/-- imageUtils.isDatabaseImage: the URL points at database storage. -/
def isDatabaseImage (imageUrl : String) : Bool :=
  ("/api/images/").data.isPrefixOf imageUrl.data

/-- imageUtils.getImageIdFromUrl: strip the `/api/images/` route prefix
(`replace` of the first occurrence; as the guard guarantees the URL starts
with it, this is dropping it). -/
def getImageIdFromUrl (imageUrl : String) : Option String :=
  if isDatabaseImage imageUrl then
    some (imageUrl.drop (String.length ("/api/images/")))
  else none

/-- The database state visible to the DELETE handler: the `maps` and
`map_images` collections. -/
structure MapsDb where
  maps : List MapDoc
  images : List String
deriving DecidableEq

/-- A response of the DELETE handler. -/
structure DeleteResponse where
  status : Nat
  success : Bool
deriving DecidableEq

/-- The document lookup shared by the handlers: `where("id","==",id)`
first, then the storage document id. -/
def findMapDoc (docs : List MapDoc) (id : String) : Option MapDoc :=
  match (docs.filter (matchesIdField id)).head? with
  | some doc => some doc
  | none => docs.find? (fun d => d.docId == id)

/-- The image-deletion step of DELETE /api/maps/[id]: when the found map
document references a database-stored image, delete it; `imageDeleteFails`
models that deletion throwing, in which case the error is caught and the
database is left as it was. -/
def deleteMapImage (db : MapsDb) (doc : MapDoc) (imageDeleteFails : Bool) :
    MapsDb :=
  match doc.data with
  | none => db
  | some m =>
    match m.imageUrl with
    | none => db
    | some url =>
      if url ≠ "" ∧ isDatabaseImage url = true then
        match getImageIdFromUrl url with
        | none => db
        | some imageId =>
          if imageDeleteFails then db
          else { db with images := db.images.erase imageId }
      else db

/-- DELETE /api/maps/[id] (route.ts lines 147-209): look the document up,
404 when absent; otherwise delete its database-stored image (tolerating
failure) and then delete the map document, reporting success. -/
def deleteMap (db : MapsDb) (id : String) (imageDeleteFails : Bool) :
    MapsDb × DeleteResponse :=
  match findMapDoc db.maps id with
  | none => (db, ⟨404, false⟩)
  | some doc =>
    ({ deleteMapImage db doc imageDeleteFails with
        maps := (deleteMapImage db doc imageDeleteFails).maps.erase doc },
     ⟨200, true⟩)

/-! ## Section 5: single-floor pathfinder

Modelled from the spec: the repository's pathfinder module
(src/lib/pathfinder, spec section 4.2) is not among the provided source
files, only its caller is.  Per the spec it is classical Dijkstra over one
floor's graph: non-negative edge weights derived from point positions,
priority selection by tentative distance with ties broken by point
insertion order, `UnknownPoint` for an absent id, `NoPath` when
unreachable, and a single-point zero-distance path when start equals end.
Points are identified by naturals; the derived Euclidean weight is
abstracted as a weight function that well-formedness (spec section 4.1)
requires to be non-negative and symmetric. -/

/-- A floor graph: points in insertion order, adjacency, derived weights. -/
structure PFGraph where
  vertices : List Nat
  adj : Nat → List Nat
  w : Nat → Nat → ℚ

/-- Graph well-formedness per spec section 4.1: no duplicate point ids,
connections only between existing points, undirected connections, and the
derived weight non-negative and symmetric on connected pairs. -/
structure WF (g : PFGraph) : Prop where
  nodup : g.vertices.Nodup
  adjMem : ∀ u ∈ g.vertices, ∀ v ∈ g.adj u, v ∈ g.vertices
  adjSymm : ∀ u ∈ g.vertices, ∀ v ∈ g.adj u, u ∈ g.adj v
  wNonneg : ∀ u ∈ g.vertices, ∀ v ∈ g.adj u, 0 ≤ g.w u v
  wSymm : ∀ u ∈ g.vertices, ∀ v ∈ g.adj u, g.w u v = g.w v u

/-- Pathfinder failures (spec section 7). -/
inductive PFError
  | UnknownPoint
  | NoPath
deriving DecidableEq

/-- The last element of a list of points, `none` for the empty list. -/
def lastOf : List Nat → Option Nat
  | [] => none
  | [a] => some a
  | _ :: b :: l => lastOf (b :: l)

/-- A nonempty list of points whose consecutive pairs are connected. -/
def isWalk (g : PFGraph) : List Nat → Bool
  | [] => false
  | [_] => true
  | a :: b :: l => decide (b ∈ g.adj a) && isWalk g (b :: l)

/-- Sum of the weights of a walk's consecutive edges. -/
def walkCost (g : PFGraph) : List Nat → ℚ
  | a :: b :: l => g.w a b + walkCost g (b :: l)
  | _ => 0

/-- The tentative-distance table: for each point, the best known distance
from the start together with the walk realizing it. -/
abbrev Tentative := Nat → Option (ℚ × List Nat)

/-- The initial table: the start at distance 0 via the one-point walk. -/
def initT (s : Nat) : Tentative :=
  fun v => if v = s then some (0, [s]) else none

/-- Compare a candidate (point `v` at tentative distance `d`) with the best
of the later points: the strictly smaller distance wins, ties go to `v`
(the earlier point in insertion order). -/
def pickBetter (v : Nat) (d : ℚ) (rest : Option (Nat × ℚ)) : Option (Nat × ℚ) :=
  match rest with
  | none => some (v, d)
  | some (u, du) => if d ≤ du then some (v, d) else some (u, du)

/-- Priority selection: the unsettled point of least tentative distance,
ties broken by insertion order (the earlier point wins). -/
def pickMin (t : Tentative) (visited : List Nat) : List Nat → Option (Nat × ℚ)
  | [] => none
  | v :: vs =>
    if v ∈ visited then pickMin t visited vs
    else
      match t v with
      | none => pickMin t visited vs
      | some (d, _) => pickBetter v d (pickMin t visited vs)

/-- Point update of a tentative table. -/
def updT (t : Tentative) (v : Nat) (e : Option (ℚ × List Nat)) : Tentative :=
  fun x => if x = v then e else t x

/-- Relax one edge u-v while settling u at distance `du` via walk `pu`:
settled points are frozen; otherwise the entry improves to
`du + w u v` via `pu ++ [v]` when that is strictly better (or new). -/
def relaxOne (g : PFGraph) (u : Nat) (du : ℚ) (pu : List Nat)
    (visited : List Nat) (t : Tentative) (v : Nat) : Tentative :=
  if v ∈ visited then t
  else
    match t v with
    | none => updT t v (some (du + g.w u v, pu ++ [v]))
    | some (dv, _) =>
      if du + g.w u v < dv then updT t v (some (du + g.w u v, pu ++ [v]))
      else t

/-- Relax every edge out of the point being settled. -/
def relaxAll (g : PFGraph) (u : Nat) (du : ℚ) (pu : List Nat)
    (visited : List Nat) : List Nat → Tentative → Tentative
  | [], t => t
  | v :: vs, t => relaxAll g u du pu visited vs (relaxOne g u du pu visited t v)

/-- Settle the picked point `u` (at distance `du`): look its entry up,
relax its edges and continue with `next`; the entry is always present when
`u` came from `pickMin`. -/
def settlePoint (g : PFGraph)
    (next : Tentative → List Nat → Tentative × List Nat)
    (t : Tentative) (visited : List Nat) (u : Nat) (du : ℚ) :
    Tentative × List Nat :=
  match t u with
  | none => (t, visited)
  | some (_, pu) => next (relaxAll g u du pu visited (g.adj u) t) (visited ++ [u])

/-- The Dijkstra main loop: repeatedly settle the unsettled point of least
tentative distance and relax its edges, until none is left (the fuel is
the number of points, which suffices). -/
def dijkstraLoop (g : PFGraph) : Nat → Tentative → List Nat → Tentative × List Nat
  | 0, t, visited => (t, visited)
  | fuel + 1, t, visited =>
    match pickMin t visited g.vertices with
    | none => (t, visited)
    | some (u, du) => settlePoint g (dijkstraLoop g fuel) t visited u du

/-- The loop invariant of the Dijkstra embedding: every tentative entry is
realized by a walk from the start, the start keeps its zero entry, settled
points precede unsettled ones in distance, and every edge out of a settled
point has been relaxed. -/
structure DijkstraInv (g : PFGraph) (s : Nat) (t : Tentative)
    (visited : List Nat) : Prop where
  startMem : s ∈ g.vertices
  mem : ∀ v d p, t v = some (d, p) → v ∈ g.vertices
  visMem : ∀ v ∈ visited, v ∈ g.vertices
  visNodup : visited.Nodup
  visSome : ∀ v ∈ visited, ∃ d p, t v = some (d, p)
  witness : ∀ v d p, t v = some (d, p) →
    isWalk g p = true ∧ p.head? = some s ∧ lastOf p = some v ∧ walkCost g p = d
  startEntry : t s = some (0, [s])
  ordered : ∀ a ∈ visited, ∀ b, b ∉ visited → ∀ da pa db pb,
    t a = some (da, pa) → t b = some (db, pb) → da ≤ db
  relaxed : ∀ a ∈ visited, ∀ v ∈ g.adj a, ∀ da pa, t a = some (da, pa) →
    ∃ dv pv, t v = some (dv, pv) ∧ dv ≤ da + g.w a v

/-- `shortestPath(graph, startId, endId)` (spec section 4.2): `UnknownPoint`
when either id is absent, otherwise Dijkstra from the start; `NoPath` when
the end keeps no finite entry, else the found walk and its distance. -/
def shortestPath (g : PFGraph) (s e : Nat) : Except PFError (List Nat × ℚ) :=
  if s ∈ g.vertices then
    if e ∈ g.vertices then
      match (dijkstraLoop g g.vertices.length (initT s) []).1 e with
      | some (d, p) => .ok (p, d)
      | none => .error .NoPath
    else .error .UnknownPoint
  else .error .UnknownPoint

/-- A three-point line graph (0 - 1 - 2 with unit weights) used to
exercise the pathfinder on a concrete input. -/
def demoGraph : PFGraph where
  vertices := [0, 1, 2]
  adj := fun u => if u = 0 then [1] else if u = 1 then [0, 2] else
    if u = 2 then [1] else []
  w := fun _ _ => 1

/-! ## Section 6: navigation session

Modelled from the spec: the navigation session component (spec section
4.4) is not among the provided source files.  A session wraps a route (a
list of segments), tracks the current segment and point indices and a
lifecycle state; reaching the last point of a non-final segment enters
`awaitingTransition`, of the final segment `completed`;
`advanceToNextSegment` is valid only in `awaitingTransition` and fails
with `InvalidTransition` otherwise, leaving the session unchanged. -/

/-- A route segment (spec section 3): floor, point ids, distance. -/
structure Segment where
  floorId : String
  points : List String
  dist : ℚ
deriving DecidableEq

/-- Session lifecycle states (spec section 4.4). -/
inductive SessionState
  | awaitingStart
  | onSegment
  | awaitingTransition
  | completed
  | aborted
deriving DecidableEq

/-- Session misuse failure. -/
inductive NavError
  | invalidTransition
deriving DecidableEq

/-- A navigation session over a route. -/
structure Session where
  route : List Segment
  segIndex : Nat
  pointIndex : Nat
  state : SessionState
deriving DecidableEq

/-- Apply the arrival rule: while presenting a segment, standing on its
last point switches the state to `completed` on the final segment and to
`awaitingTransition` otherwise. -/
def refreshState (s : Session) : Session :=
  match s.route[s.segIndex]? with
  | none => s
  | some seg =>
    if s.state = .onSegment ∧ s.pointIndex + 1 = seg.points.length then
      if s.segIndex + 1 = s.route.length then { s with state := .completed }
      else { s with state := .awaitingTransition }
    else s

/-- A freshly built session: route consumed from the start, nothing
presented yet (`awaitingStart`). -/
def newSession (route : List Segment) : Session :=
  ⟨route, 0, 0, .awaitingStart⟩

/-- Start presenting the first segment. -/
def beginSession (s : Session) : Session :=
  if s.state = .awaitingStart then refreshState { s with state := .onSegment }
  else s

/-- Move to the next point of the current segment (movement along a
segment while `onSegment`), applying the arrival rule. -/
def advancePoint (s : Session) : Session :=
  match s.route[s.segIndex]? with
  | none => s
  | some seg =>
    if s.state = .onSegment ∧ s.pointIndex + 1 < seg.points.length then
      refreshState { s with pointIndex := s.pointIndex + 1 }
    else s

/-- `advanceToNextSegment()` (spec section 4.4): valid only in
`awaitingTransition`, where it moves to `onSegment` on the next segment
with the point index reset to 0; otherwise it fails with
`InvalidTransition` and the session is unchanged. -/
def advanceToNextSegment (s : Session) : Session × Option NavError :=
  if s.state = .awaitingTransition then
    (refreshState
      { s with segIndex := s.segIndex + 1, pointIndex := 0, state := .onSegment },
     none)
  else (s, some .invalidTransition)

/-- The number of points of the current segment (0 when none). -/
def segLen (s : Session) : Nat :=
  match s.route[s.segIndex]? with
  | none => 0
  | some seg => seg.points.length

/-- Walk the current segment point by point until it is finished. -/
def walkSegment : Nat → Session → Session
  | 0, s => s
  | fuel + 1, s =>
    if s.state = .onSegment then walkSegment fuel (advancePoint s) else s

/-- The canonical driver: walk the current segment; on a pending
transition, confirm it via `advanceToNextSegment` and continue, counting
those calls; stop otherwise. -/
def playRoute : Nat → Session → Session × Nat
  | 0, s => (s, 0)
  | fuel + 1, s =>
    let s1 := walkSegment (segLen s) s
    if s1.state = .awaitingTransition then
      let r := playRoute fuel (advanceToNextSegment s1).1
      (r.1, r.2 + 1)
    else (s1, 0)

/-- The session positioned at the start of segment `i`, as produced by
`beginSession` (for `i = 0`) or by a confirmed transition. -/
def atSegStart (route : List Segment) (i : Nat) : Session :=
  refreshState ⟨route, i, 0, .onSegment⟩

/-! ## Theorems: Section 1 (analyze-map) -/

lemma round2_int_div_twenty (n : ℤ) : round2 ((n : ℚ) / 20) = (n : ℚ) / 20 := by
  unfold round2
  have h : (100 : ℚ) * ((n : ℚ) / 20) = ((5 * n : ℤ) : ℚ) := by
    push_cast
    ring
  rw [h, round_intCast]
  push_cast
  ring

lemma round2_fifty : round2 50 = 50 := by
  have h : (50 : ℚ) = ((1000 : ℤ) : ℚ) / 20 := by norm_num
  rw [h, round2_int_div_twenty]

/-- C4: for a detected item whose `box_2d` is a 4-element array
[ymin, xmin, ymax, xmax] of integers of the 0-1000 grid, the analyze-map
endpoint outputs exactly x = ((xmin+xmax)/2)/10 and y = ((ymin+ymax)/2)/10
(the two-decimal rounding is exact on such inputs), and the resulting
position lies in the 0-100 coordinate space. -/
theorem processNode_box_center (label : String) (ymin xmin ymax xmax : ℤ)
    (hy0 : 0 ≤ ymin) (hy1 : ymin ≤ 1000) (hx0 : 0 ≤ xmin) (hx1 : xmin ≤ 1000)
    (hY0 : 0 ≤ ymax) (hY1 : ymax ≤ 1000) (hX0 : 0 ≤ xmax) (hX1 : xmax ≤ 1000) :
    processNode ⟨label, .elems [(ymin : ℚ), (xmin : ℚ), (ymax : ℚ), (xmax : ℚ)]⟩ =
      ⟨label, ((xmin : ℚ) + (xmax : ℚ)) / 2 / 10, ((ymin : ℚ) + (ymax : ℚ)) / 2 / 10⟩ ∧
    0 ≤ ((xmin : ℚ) + (xmax : ℚ)) / 2 / 10 ∧ ((xmin : ℚ) + (xmax : ℚ)) / 2 / 10 ≤ 100 ∧
    0 ≤ ((ymin : ℚ) + (ymax : ℚ)) / 2 / 10 ∧ ((ymin : ℚ) + (ymax : ℚ)) / 2 / 10 ≤ 100 := by
  have key : ∀ a b : ℤ, round2 (((a : ℚ) + (b : ℚ)) / 2 / 10) = ((a : ℚ) + (b : ℚ)) / 2 / 10 := by
    intro a b
    have h1 : ((a : ℚ) + (b : ℚ)) / 2 / 10 = (((a + b : ℤ) : ℚ)) / 20 := by
      push_cast
      ring
    rw [h1, round2_int_div_twenty]
  have bnd : ∀ a b : ℤ, 0 ≤ a → a ≤ 1000 → 0 ≤ b → b ≤ 1000 →
      0 ≤ ((a : ℚ) + (b : ℚ)) / 2 / 10 ∧ ((a : ℚ) + (b : ℚ)) / 2 / 10 ≤ 100 := by
    intro a b h0 h1 h2 h3
    have ha : (0 : ℚ) ≤ (a : ℚ) := by exact_mod_cast h0
    have hb : (0 : ℚ) ≤ (b : ℚ) := by exact_mod_cast h2
    have ha' : (a : ℚ) ≤ 1000 := by exact_mod_cast h1
    have hb' : (b : ℚ) ≤ 1000 := by exact_mod_cast h3
    constructor
    · linarith
    · linarith
  exact ⟨by simp [processNode, key], (bnd xmin xmax hx0 hx1 hX0 hX1).1,
    (bnd xmin xmax hx0 hx1 hX0 hX1).2, (bnd ymin ymax hy0 hy1 hY0 hY1).1,
    (bnd ymin ymax hy0 hy1 hY0 hY1).2⟩


/-- C4 witness: the conversion at the concrete box [150, 400, 180, 450]. -/
theorem processNode_box_center_witness :
    (0 : ℤ) ≤ 150 ∧ (150 : ℤ) ≤ 1000 ∧
    (processNode ⟨"Conference Room",
        .elems [((150 : ℤ) : ℚ), ((400 : ℤ) : ℚ), ((180 : ℤ) : ℚ), ((450 : ℤ) : ℚ)]⟩ =
        ⟨"Conference Room", (((400 : ℤ) : ℚ) + ((450 : ℤ) : ℚ)) / 2 / 10,
          (((150 : ℤ) : ℚ) + ((180 : ℤ) : ℚ)) / 2 / 10⟩ ∧
      0 ≤ (((400 : ℤ) : ℚ) + ((450 : ℤ) : ℚ)) / 2 / 10 ∧
      (((400 : ℤ) : ℚ) + ((450 : ℤ) : ℚ)) / 2 / 10 ≤ 100 ∧
      0 ≤ (((150 : ℤ) : ℚ) + ((180 : ℤ) : ℚ)) / 2 / 10 ∧
      (((150 : ℤ) : ℚ) + ((180 : ℤ) : ℚ)) / 2 / 10 ≤ 100) :=
  ⟨by decide, by decide,
    processNode_box_center ("Conference Room") 150 400 180 450 (by decide)
      (by decide) (by decide) (by decide) (by decide) (by decide) (by decide)
      (by decide)⟩

/-- C9: an item that fails the `box_2d` validity check is still emitted
as a node, carrying its label, at the default position (50, 50), and the
endpoint's mapping emits one node per raw item (nothing is dropped). -/
theorem processNode_invalid_box_default :
    (∀ item : RawItem, validBox item.box = false →
      processNode item = ⟨item.label, 50, 50⟩) ∧
    (∀ items : List RawItem, (processedNodes items).length = items.length) := by
  constructor
  · intro item hv
    rcases item with ⟨label, box⟩
    rcases box with _ | _ | l
    · simp [processNode, round2_fifty]
    · simp [processNode, round2_fifty]
    · rcases l with _ | ⟨a, _ | ⟨b, _ | ⟨c, _ | ⟨d, _ | ⟨e, l⟩⟩⟩⟩⟩ <;>
        simp_all [processNode, validBox, round2_fifty]
  · intro items
    simp [processedNodes]

/-- C9 witness: an item with an absent `box_2d` at the default center. -/
theorem processNode_invalid_box_default_witness :
    validBox BoxField.absent = false ∧
    processNode ⟨"Room 101", BoxField.absent⟩ = ⟨"Room 101", 50, 50⟩ :=
  ⟨rfl, processNode_invalid_box_default.1 ⟨"Room 101", BoxField.absent⟩ rfl⟩

/-! ## Theorems: Section 2 (summaryService) -/

lemma cacheLookup_insert_self (c : SummaryCache) (k v : String) :
    cacheLookup (cacheInsert c k v) k = some v := by
  simp [cacheLookup, cacheInsert, List.find?]

lemma fetchSummary_short (cache : SummaryCache) (nodes : List SNode)
    (mapId : String) (isLastMap : Bool) (net : SummaryNetResult)
    (hlen : nodes.length < 2) :
    fetchSummary cache nodes mapId isLastMap net = ⟨none, cache, false⟩ := by
  unfold fetchSummary
  rw [if_pos hlen]

lemma fetchSummary_hit (cache : SummaryCache) (nodes : List SNode)
    (mapId : String) (isLastMap : Bool) (net : SummaryNetResult) (v : String)
    (hlen : ¬ nodes.length < 2)
    (hv : cacheLookup cache (summaryCacheKey mapId nodes isLastMap) = some v) :
    fetchSummary cache nodes mapId isLastMap net =
      ⟨if v = "" then none else some v, cache, false⟩ := by
  unfold fetchSummary
  rw [if_neg hlen, hv]

lemma fetchSummary_miss (cache : SummaryCache) (nodes : List SNode)
    (mapId : String) (isLastMap : Bool) (net : SummaryNetResult)
    (hlen : ¬ nodes.length < 2)
    (hc : cacheLookup cache (summaryCacheKey mapId nodes isLastMap) = none) :
    fetchSummary cache nodes mapId isLastMap net =
      handleNetResult cache (summaryCacheKey mapId nodes isLastMap) net := by
  unfold fetchSummary
  rw [if_neg hlen, hc]

lemma handleNetResult_httpError (cache : SummaryCache) (key : String) (st : Nat) :
    handleNetResult cache key (.httpError st) = ⟨none, cache, true⟩ := rfl

lemma handleNetResult_thrown (cache : SummaryCache) (key : String) :
    handleNetResult cache key .thrown = ⟨none, cache, true⟩ := rfl

lemma handleNetResult_payload_none (cache : SummaryCache) (key : String)
    (succ : Bool) (err : Option String) :
    handleNetResult cache key (.payload succ none err) = ⟨none, cache, true⟩ := rfl

lemma handleNetResult_payload_some (cache : SummaryCache) (key : String)
    (succ : Bool) (s : String) (err : Option String) :
    handleNetResult cache key (.payload succ (some s) err) =
      if succ = true ∧ jsTrim s ≠ "" then
        ⟨some (jsTrim s), cacheInsert cache key (jsTrim s), true⟩
      else ⟨none, cache, true⟩ := rfl

/-- C2: once a `fetchSummary` call for a given (mapId, node-id sequence,
isLastMap) triple has succeeded, the next call with the same triple is a
pure cache hit: it returns the identical string, leaves the cache
unchanged, and issues no network request — and since the state is also
unchanged, the same conclusion applies to every later call with that
triple; the cache key is exactly the triple's encoding `summaryCacheKey`. -/
theorem fetchSummary_cached_after_success (cache : SummaryCache)
    (nodes : List SNode) (mapId : String) (isLastMap : Bool)
    (net1 net2 : SummaryNetResult) (r : String) (cache1 : SummaryCache) (b : Bool)
    (h : fetchSummary cache nodes mapId isLastMap net1 = ⟨some r, cache1, b⟩) :
    fetchSummary cache1 nodes mapId isLastMap net2 = ⟨some r, cache1, false⟩ := by
  by_cases hlen : nodes.length < 2
  · rw [fetchSummary_short cache nodes mapId isLastMap net1 hlen] at h
    simp at h
  · rcases hc : cacheLookup cache (summaryCacheKey mapId nodes isLastMap) with _ | v
    · rw [fetchSummary_miss cache nodes mapId isLastMap net1 hlen hc] at h
      rcases net1 with ⟨st⟩ | - | ⟨succ, summ, err⟩
      · rw [handleNetResult_httpError] at h
        simp at h
      · rw [handleNetResult_thrown] at h
        simp at h
      · rcases summ with _ | s
        · rw [handleNetResult_payload_none] at h
          simp at h
        · rw [handleNetResult_payload_some] at h
          by_cases hcnd : succ = true ∧ jsTrim s ≠ ""
          · rw [if_pos hcnd] at h
            simp only [FetchOutcome.mk.injEq, Option.some.injEq] at h
            obtain ⟨hr, hcache, -⟩ := h
            subst hr
            subst hcache
            rw [fetchSummary_hit _ nodes mapId isLastMap net2 (jsTrim s) hlen
              (cacheLookup_insert_self _ _ _)]
            rw [if_neg hcnd.2]
          · rw [if_neg hcnd] at h
            simp at h
    · rw [fetchSummary_hit cache nodes mapId isLastMap net1 v hlen hc] at h
      by_cases hv : v = ""
      · rw [if_pos hv] at h
        simp at h
      · rw [if_neg hv] at h
        simp only [FetchOutcome.mk.injEq, Option.some.injEq] at h
        obtain ⟨hr, hcache, -⟩ := h
        subst hr
        subst hcache
        rw [fetchSummary_hit cache nodes mapId isLastMap net2 v hlen hc]
        rw [if_neg hv]

/-- C2 witness: a successful first call for a concrete two-node segment,
then the cached second call (with the collaborator now failing). -/
theorem fetchSummary_cached_after_success_witness :
    fetchSummary [] [⟨"a", "A"⟩, ⟨"b", "B"⟩] "m" false
        (.payload true (some ("go right")) none) =
      ⟨some ("go right"), [("m_a-b_intermediate", "go right")], true⟩ ∧
    fetchSummary [("m_a-b_intermediate", "go right")] [⟨"a", "A"⟩, ⟨"b", "B"⟩]
        "m" false .thrown =
      ⟨some ("go right"), [("m_a-b_intermediate", "go right")], false⟩ := by
  have h1 : fetchSummary [] [⟨"a", "A"⟩, ⟨"b", "B"⟩] "m" false
      (.payload true (some ("go right")) none) =
      ⟨some ("go right"), [("m_a-b_intermediate", "go right")], true⟩ := by decide
  exact ⟨h1, fetchSummary_cached_after_success [] [⟨"a", "A"⟩, ⟨"b", "B"⟩] "m"
    false (.payload true (some ("go right")) none) .thrown ("go right")
    [("m_a-b_intermediate", "go right")] true h1⟩

/-- C5: `fetchSummary` is a total function (the embedding returns a value
in every case, modelling that the service never throws), and on every
collaborator failure — non-OK HTTP response, unsuccessful or empty
payload, thrown fetch error — it leaves the cache unchanged and, whenever
the network was actually consulted, returns null. -/
theorem fetchSummary_failure_graceful (cache : SummaryCache)
    (nodes : List SNode) (mapId : String) (isLastMap : Bool)
    (net : SummaryNetResult) (h : isNetFailure net) :
    (fetchSummary cache nodes mapId isLastMap net).cache = cache ∧
    ((fetchSummary cache nodes mapId isLastMap net).requested = true →
      (fetchSummary cache nodes mapId isLastMap net).result = none) := by
  by_cases hlen : nodes.length < 2
  · rw [fetchSummary_short cache nodes mapId isLastMap net hlen]
    simp
  · rcases hc : cacheLookup cache (summaryCacheKey mapId nodes isLastMap) with _ | v
    · rw [fetchSummary_miss cache nodes mapId isLastMap net hlen hc]
      rcases net with ⟨st⟩ | - | ⟨succ, summ, err⟩
      · rw [handleNetResult_httpError]
        simp
      · rw [handleNetResult_thrown]
        simp
      · rcases summ with _ | s
        · rw [handleNetResult_payload_none]
          simp
        · rw [handleNetResult_payload_some]
          unfold isNetFailure at h
          have hcnd : ¬ (succ = true ∧ jsTrim s ≠ "") := by
            intro hco
            exact h ⟨hco.1, s, rfl, hco.2⟩
          rw [if_neg hcnd]
          simp
    · rw [fetchSummary_hit cache nodes mapId isLastMap net v hlen hc]
      simp

/-- C5 witness: a thrown fetch at a concrete input. -/
theorem fetchSummary_failure_graceful_witness :
    isNetFailure SummaryNetResult.thrown ∧
    ((fetchSummary [] [⟨"a", "A"⟩, ⟨"b", "B"⟩] "m" true .thrown).cache = [] ∧
      ((fetchSummary [] [⟨"a", "A"⟩, ⟨"b", "B"⟩] "m" true .thrown).requested = true →
        (fetchSummary [] [⟨"a", "A"⟩, ⟨"b", "B"⟩] "m" true .thrown).result = none)) :=
  ⟨trivial, fetchSummary_failure_graceful [] [⟨"a", "A"⟩, ⟨"b", "B"⟩] "m" true
    .thrown trivial⟩

/-! ## Theorems: Section 3 (summary endpoint, with the short-node service
behaviour) -/

/-- C8: a `fetchSummary` call with fewer than 2 nodes returns null at once,
touching neither the network nor the cache; and the summary endpoint
(given a configured API key) answers 400 whenever the request body's
`nodes` field is missing, not an array, or shorter than 2 elements. -/
theorem shortNodes_rejected :
    (∀ (cache : SummaryCache) (nodes : List SNode) (mapId : String)
        (isLastMap : Bool) (net : SummaryNetResult), nodes.length < 2 →
      fetchSummary cache nodes mapId isLastMap net = ⟨none, cache, false⟩) ∧
    (∀ (apiKey : Option String) (nodesField : NodesField) (gen : GenOutcome),
      ¬ (apiKey = none ∨ apiKey = some ("")) → invalidNodesField nodesField →
      (summaryPOST apiKey nodesField gen).status = 400) := by
  constructor
  · intro cache nodes mapId isLastMap net hlen
    exact fetchSummary_short cache nodes mapId isLastMap net hlen
  · intro apiKey nodesField gen hkey hbad
    unfold summaryPOST
    rw [if_neg hkey]
    rcases nodesField with _ | _ | nodes
    · rfl
    · rfl
    · have hb2 : nodes.length < 2 := hbad
      show (summaryPOSTWithNodes nodes gen).status = 400
      unfold summaryPOSTWithNodes
      rw [if_pos hb2]

/-- C8 witness: a one-node service call and a missing-`nodes` request. -/
theorem shortNodes_rejected_witness :
    ([⟨"a", "A"⟩] : List SNode).length < 2 ∧
    fetchSummary [] [⟨"a", "A"⟩] "m" false .thrown = ⟨none, [], false⟩ ∧
    ¬ ((some ("k") : Option String) = none ∨ (some ("k") : Option String) = some ("")) ∧
    invalidNodesField .absent ∧
    (summaryPOST (some ("k")) .absent (.text ("ok"))).status = 400 := by
  refine ⟨by decide, shortNodes_rejected.1 [] [⟨"a", "A"⟩] "m" false .thrown
    (by decide), by simp, trivial, shortNodes_rejected.2 (some ("k")) .absent
    (.text ("ok")) (by simp) trivial⟩

/-! ## Theorems: Section 4 (maps [id] route) -/

lemma docResponse_some (doc : MapDoc) (m : MData) (hd : doc.data = some m) :
    docResponse doc = ⟨200, true, some (effectiveId m doc.docId)⟩ := by
  unfold docResponse
  rw [hd]

lemma docResponse_none (doc : MapDoc) (hd : doc.data = none) :
    docResponse doc = ⟨500, false, none⟩ := by
  unfold docResponse
  rw [hd]

/-- C3: the GET /api/maps/[id] handler first queries by the
application-level `id` field and answers with the first match; only when
that query is empty does it fall back to the storage document id; and it
answers 404 exactly when both lookups fail. -/
theorem getMap_lookup_order (docs : List MapDoc) (id : String) :
    (∀ (doc : MapDoc) (m : MData),
      (docs.filter (matchesIdField id)).head? = some doc → doc.data = some m →
      getMap docs id = ⟨200, true, some (effectiveId m doc.docId)⟩) ∧
    (docs.filter (matchesIdField id) = [] →
      ∀ (doc : MapDoc) (m : MData),
        docs.find? (fun d => d.docId == id) = some doc → doc.data = some m →
        getMap docs id = ⟨200, true, some (effectiveId m doc.docId)⟩) ∧
    ((getMap docs id).status = 404 ↔
      docs.filter (matchesIdField id) = [] ∧
        docs.find? (fun d => d.docId == id) = none) := by
  refine ⟨?_, ?_, ?_⟩
  · intro doc m hh hd
    have hmain : getMap docs id = docResponse doc := by
      unfold getMap
      rw [hh]
    rw [hmain, docResponse_some doc m hd]
  · intro hfil doc m hf hd
    have hh : (docs.filter (matchesIdField id)).head? = none := by
      rw [hfil]
      rfl
    have hmain : getMap docs id = getMapFallback docs id := by
      unfold getMap
      rw [hh]
    have hfb : getMapFallback docs id = docResponse doc := by
      unfold getMapFallback
      rw [hf]
    rw [hmain, hfb, docResponse_some doc m hd]
  · rcases hh : (docs.filter (matchesIdField id)).head? with _ | doc
    · have hmain : getMap docs id = getMapFallback docs id := by
        unfold getMap
        rw [hh]
      rcases hf : docs.find? (fun d => d.docId == id) with _ | doc
      · have hfb : getMapFallback docs id = ⟨404, false, none⟩ := by
          unfold getMapFallback
          rw [hf]
        rw [hmain, hfb]
        exact ⟨fun _ => ⟨List.head?_eq_none_iff.mp hh, hf⟩, fun _ => rfl⟩
      · have hfb : getMapFallback docs id = docResponse doc := by
          unfold getMapFallback
          rw [hf]
        rw [hmain, hfb]
        constructor
        · intro h404
          rcases hd : doc.data with _ | m
          · rw [docResponse_none doc hd] at h404
            simp at h404
          · rw [docResponse_some doc m hd] at h404
            simp at h404
        · rintro ⟨-, hnone⟩
          rw [hf] at hnone
          simp at hnone
    · have hmain : getMap docs id = docResponse doc := by
        unfold getMap
        rw [hh]
      have hne : docs.filter (matchesIdField id) ≠ [] := by
        intro hnil
        rw [hnil] at hh
        simp at hh
      rw [hmain]
      constructor
      · intro h404
        rcases hd : doc.data with _ | m
        · rw [docResponse_none doc hd] at h404
          simp at h404
        · rw [docResponse_some doc m hd] at h404
          simp at h404
      · rintro ⟨hnil, -⟩
        exact absurd hnil hne

/-- C3 witness: a store holding one document addressed by its `id` field. -/
theorem getMap_lookup_order_witness :
    (([⟨"d1", some ⟨some ("m1"), "Floor 1", none⟩⟩] :
        List MapDoc).filter (matchesIdField ("m1"))).head? =
      some ⟨"d1", some ⟨some ("m1"), "Floor 1", none⟩⟩ ∧
    getMap [⟨"d1", some ⟨some ("m1"), "Floor 1", none⟩⟩] "m1" =
      ⟨200, true, some (effectiveId ⟨some ("m1"), "Floor 1", none⟩ "d1")⟩ := by
  have hh : (([⟨"d1", some ⟨some ("m1"), "Floor 1", none⟩⟩] :
      List MapDoc).filter (matchesIdField ("m1"))).head? =
      some ⟨"d1", some ⟨some ("m1"), "Floor 1", none⟩⟩ := by decide
  exact ⟨hh, (getMap_lookup_order [⟨"d1", some ⟨some ("m1"), "Floor 1", none⟩⟩]
    "m1").1 ⟨"d1", some ⟨some ("m1"), "Floor 1", none⟩⟩ ⟨some ("m1"), "Floor 1", none⟩
    hh rfl⟩

lemma deleteMapImage_maps (db : MapsDb) (doc : MapDoc) (fails : Bool) :
    (deleteMapImage db doc fails).maps = db.maps := by
  unfold deleteMapImage
  repeat' split
  all_goals rfl

/-- C10: when the requested map document is found, DELETE /api/maps/[id]
removes it from the maps collection and reports success, whether or not
the deletion of its database-stored image fails (the image error is caught
and the map deletion still proceeds). -/
theorem deleteMap_tolerates_image_failure (db : MapsDb) (id : String)
    (doc : MapDoc) (h : findMapDoc db.maps id = some doc) (fails : Bool) :
    (deleteMap db id fails).2 = ⟨200, true⟩ ∧
    (deleteMap db id fails).1.maps = db.maps.erase doc := by
  have hmain : deleteMap db id fails =
      ({ deleteMapImage db doc fails with
          maps := (deleteMapImage db doc fails).maps.erase doc }, ⟨200, true⟩) := by
    unfold deleteMap
    rw [h]
  refine ⟨by rw [hmain], ?_⟩
  rw [hmain]
  show (deleteMapImage db doc fails).maps.erase doc = db.maps.erase doc
  rw [deleteMapImage_maps]

/-- C10 witness: deleting a map whose image deletion fails. -/
theorem deleteMap_tolerates_image_failure_witness :
    findMapDoc ([⟨"d1", some ⟨some ("m1"), "Floor 1", some ("/api/images/img1")⟩⟩] :
        List MapDoc) "m1" =
      some ⟨"d1", some ⟨some ("m1"), "Floor 1", some ("/api/images/img1")⟩⟩ ∧
    ((deleteMap ⟨[⟨"d1", some ⟨some ("m1"), "Floor 1", some ("/api/images/img1")⟩⟩],
        ["img1"]⟩ "m1" true).2 = ⟨200, true⟩ ∧
      (deleteMap ⟨[⟨"d1", some ⟨some ("m1"), "Floor 1", some ("/api/images/img1")⟩⟩],
        ["img1"]⟩ "m1" true).1.maps =
        ([⟨"d1", some ⟨some ("m1"), "Floor 1", some ("/api/images/img1")⟩⟩] :
          List MapDoc).erase
          ⟨"d1", some ⟨some ("m1"), "Floor 1", some ("/api/images/img1")⟩⟩) := by
  have hfind : findMapDoc ([⟨"d1", some ⟨some ("m1"), "Floor 1",
      some ("/api/images/img1")⟩⟩] : List MapDoc) "m1" =
      some ⟨"d1", some ⟨some ("m1"), "Floor 1", some ("/api/images/img1")⟩⟩ := by decide
  exact ⟨hfind, deleteMap_tolerates_image_failure
    ⟨[⟨"d1", some ⟨some ("m1"), "Floor 1", some ("/api/images/img1")⟩⟩], ["img1"]⟩
    "m1" ⟨"d1", some ⟨some ("m1"), "Floor 1", some ("/api/images/img1")⟩⟩ hfind true⟩

/-! ## Theorems: Section 6 (navigation session) -/

lemma refreshState_route (s : Session) : (refreshState s).route = s.route := by
  unfold refreshState
  repeat' split
  all_goals rfl

lemma refreshState_segIndex (s : Session) :
    (refreshState s).segIndex = s.segIndex := by
  unfold refreshState
  repeat' split
  all_goals rfl

lemma refreshState_not_last (route : List Segment) (i p : Nat) (seg : Segment)
    (hseg : route[i]? = some seg) (hp : p + 1 ≠ seg.points.length) :
    refreshState ⟨route, i, p, .onSegment⟩ = ⟨route, i, p, .onSegment⟩ := by
  simp [refreshState, hseg, hp]

lemma refreshState_last_final (route : List Segment) (i p : Nat) (seg : Segment)
    (hseg : route[i]? = some seg) (hp : p + 1 = seg.points.length)
    (hfin : i + 1 = route.length) :
    refreshState ⟨route, i, p, .onSegment⟩ = ⟨route, i, p, .completed⟩ := by
  simp [refreshState, hseg, hp, hfin]

lemma refreshState_last_mid (route : List Segment) (i p : Nat) (seg : Segment)
    (hseg : route[i]? = some seg) (hp : p + 1 = seg.points.length)
    (hfin : i + 1 ≠ route.length) :
    refreshState ⟨route, i, p, .onSegment⟩ = ⟨route, i, p, .awaitingTransition⟩ := by
  simp [refreshState, hseg, hp, hfin]

lemma advancePoint_step (route : List Segment) (i p : Nat) (seg : Segment)
    (hseg : route[i]? = some seg) (hlt : p + 1 < seg.points.length) :
    advancePoint ⟨route, i, p, .onSegment⟩ =
      refreshState ⟨route, i, p + 1, .onSegment⟩ := by
  simp [advancePoint, hseg, hlt]

lemma walkSegment_succ (fuel : Nat) (s : Session) :
    walkSegment (fuel + 1) s =
      if s.state = .onSegment then walkSegment fuel (advancePoint s) else s := rfl

lemma walkSegment_on (fuel : Nat) (s : Session) (hs : s.state = .onSegment) :
    walkSegment (fuel + 1) s = walkSegment fuel (advancePoint s) := by
  rw [walkSegment_succ, if_pos hs]

lemma walkSegment_nonOn (fuel : Nat) (s : Session)
    (hs : s.state ≠ .onSegment) : walkSegment fuel s = s := by
  cases fuel
  · rfl
  · rw [walkSegment_succ, if_neg hs]

lemma playRoute_succ (fuel : Nat) (s : Session) :
    playRoute (fuel + 1) s =
      if (walkSegment (segLen s) s).state = .awaitingTransition then
        ((playRoute fuel (advanceToNextSegment (walkSegment (segLen s) s)).1).1,
         (playRoute fuel (advanceToNextSegment (walkSegment (segLen s) s)).1).2 + 1)
      else (walkSegment (segLen s) s, 0) := rfl

lemma playRoute_succ_mid (fuel : Nat) (s : Session)
    (hs : (walkSegment (segLen s) s).state = .awaitingTransition) :
    playRoute (fuel + 1) s =
      ((playRoute fuel (advanceToNextSegment (walkSegment (segLen s) s)).1).1,
       (playRoute fuel (advanceToNextSegment (walkSegment (segLen s) s)).1).2 + 1) := by
  rw [playRoute_succ, if_pos hs]

lemma playRoute_succ_stop (fuel : Nat) (s : Session)
    (hs : (walkSegment (segLen s) s).state ≠ .awaitingTransition) :
    playRoute (fuel + 1) s = (walkSegment (segLen s) s, 0) := by
  rw [playRoute_succ, if_neg hs]

lemma walkSegment_to_end (route : List Segment) (i : Nat) (seg : Segment)
    (hseg : route[i]? = some seg) :
    ∀ (fuel p : Nat), p + 1 < seg.points.length →
      seg.points.length ≤ fuel + p + 1 →
      walkSegment fuel ⟨route, i, p, .onSegment⟩ =
        refreshState ⟨route, i, seg.points.length - 1, .onSegment⟩ := by
  intro fuel
  induction fuel with
  | zero =>
    intro p hlt hle
    omega
  | succ fuel ih =>
    intro p hlt hle
    rw [walkSegment_on fuel _ rfl, advancePoint_step route i p seg hseg hlt]
    by_cases hend : p + 1 + 1 = seg.points.length
    · have hp1 : p + 1 = seg.points.length - 1 := by omega
      rw [hp1]
      by_cases hfin : i + 1 = route.length
      · rw [refreshState_last_final route i (seg.points.length - 1) seg hseg
          (by omega) hfin]
        exact walkSegment_nonOn fuel _ (by simp)
      · rw [refreshState_last_mid route i (seg.points.length - 1) seg hseg
          (by omega) hfin]
        exact walkSegment_nonOn fuel _ (by simp)
    · rw [refreshState_not_last route i (p + 1) seg hseg hend]
      exact ih (p + 1) (by omega) (by omega)

lemma atSegStart_walk (route : List Segment) (i : Nat) (seg : Segment)
    (hseg : route[i]? = some seg) (hne : seg.points ≠ []) :
    walkSegment (segLen (atSegStart route i)) (atSegStart route i) =
      refreshState ⟨route, i, seg.points.length - 1, .onSegment⟩ := by
  have hlen : 0 < seg.points.length := List.length_pos.mpr hne
  have hsl : segLen (atSegStart route i) = seg.points.length := by
    unfold segLen atSegStart
    rw [refreshState_route, refreshState_segIndex]
    simp [hseg]
  rw [hsl]
  by_cases h1 : seg.points.length = 1
  · have h0 : (0 : Nat) = seg.points.length - 1 := by omega
    unfold atSegStart
    rw [← h0]
    by_cases hfin : i + 1 = route.length
    · rw [refreshState_last_final route i 0 seg hseg (by omega) hfin]
      exact walkSegment_nonOn _ _ (by simp)
    · rw [refreshState_last_mid route i 0 seg hseg (by omega) hfin]
      exact walkSegment_nonOn _ _ (by simp)
  · unfold atSegStart
    rw [refreshState_not_last route i 0 seg hseg (by omega)]
    exact walkSegment_to_end route i seg hseg seg.points.length 0 (by omega)
      (by omega)

lemma playRoute_completes (k : Nat) :
    ∀ (route : List Segment) (i : Nat),
      (∀ seg ∈ route, seg.points ≠ []) → i + k + 1 = route.length →
      (playRoute (k + 1) (atSegStart route i)).1.state = .completed ∧
      (playRoute (k + 1) (atSegStart route i)).2 = k := by
  induction k with
  | zero =>
    intro route i hne hlen
    have hi : i < route.length := by omega
    have hseg : route[i]? = some route[i] := List.getElem?_eq_getElem hi
    have hnei : route[i].points ≠ [] := hne route[i] (List.getElem_mem hi)
    have hwalk := atSegStart_walk route i route[i] hseg hnei
    have hfin : i + 1 = route.length := by omega
    have hend : refreshState ⟨route, i, route[i].points.length - 1, .onSegment⟩ =
        ⟨route, i, route[i].points.length - 1, .completed⟩ := by
      have hlenp : 0 < route[i].points.length := List.length_pos.mpr hnei
      exact refreshState_last_final route i _ route[i] hseg (by omega) hfin
    rw [playRoute_succ_stop 0 _ (by rw [hwalk, hend]; simp)]
    rw [hwalk, hend]
    exact ⟨rfl, rfl⟩
  | succ k ih =>
    intro route i hne hlen
    have hi : i < route.length := by omega
    have hseg : route[i]? = some route[i] := List.getElem?_eq_getElem hi
    have hnei : route[i].points ≠ [] := hne route[i] (List.getElem_mem hi)
    have hwalk := atSegStart_walk route i route[i] hseg hnei
    have hfin : i + 1 ≠ route.length := by omega
    have hend : refreshState ⟨route, i, route[i].points.length - 1, .onSegment⟩ =
        ⟨route, i, route[i].points.length - 1, .awaitingTransition⟩ := by
      have hlenp : 0 < route[i].points.length := List.length_pos.mpr hnei
      exact refreshState_last_mid route i _ route[i] hseg (by omega) hfin
    have hadv : (advanceToNextSegment
        ⟨route, i, route[i].points.length - 1, .awaitingTransition⟩).1 =
        atSegStart route (i + 1) := by
      unfold advanceToNextSegment atSegStart
      rw [if_pos rfl]
    have hrec := ih route (i + 1) hne (by omega)
    rw [playRoute_succ_mid (k + 1) _ (by rw [hwalk, hend])]
    rw [hwalk, hend, hadv]
    exact ⟨hrec.1, by rw [hrec.2]⟩

/-- C6: over a route of N nonempty segments, the driver that presents each
segment and confirms each pending transition reaches `completed` having
made exactly N-1 `advanceToNextSegment` calls, every one of them from the
`awaitingTransition` state (the driver only calls it there); and a call to
`advanceToNextSegment` in any state other than `awaitingTransition` — in
particular in `onSegment` — fails with `InvalidTransition` and leaves the
session untouched. -/
theorem session_advance_contract :
    (∀ route : List Segment, route ≠ [] → (∀ seg ∈ route, seg.points ≠ []) →
      (playRoute route.length (beginSession (newSession route))).1.state =
        .completed ∧
      (playRoute route.length (beginSession (newSession route))).2 =
        route.length - 1) ∧
    (∀ s : Session, s.state ≠ .awaitingTransition →
      advanceToNextSegment s = (s, some .invalidTransition)) := by
  constructor
  · intro route hne hpts
    have hlen : 0 < route.length := List.length_pos.mpr hne
    have hbegin : beginSession (newSession route) = atSegStart route 0 := rfl
    have hN : route.length = (route.length - 1) + 1 := by omega
    rw [hbegin, hN]
    have h := playRoute_completes (route.length - 1) route 0 hpts (by omega)
    exact ⟨h.1, by rw [h.2]; omega⟩
  · intro s hs
    unfold advanceToNextSegment
    rw [if_neg hs]

/-- C6 witness: a concrete two-segment route completed with one transition
confirmation, and an `onSegment` misuse of `advanceToNextSegment`. -/
theorem session_advance_contract_witness :
    (([⟨"A", ["p", "q"], 1⟩, ⟨"B", ["r", "t"], 2⟩] : List Segment) ≠ [] ∧
      (∀ seg ∈ ([⟨"A", ["p", "q"], 1⟩, ⟨"B", ["r", "t"], 2⟩] : List Segment),
        seg.points ≠ []) ∧
      (playRoute 2 (beginSession
          (newSession [⟨"A", ["p", "q"], 1⟩, ⟨"B", ["r", "t"], 2⟩]))).1.state =
        .completed ∧
      (playRoute 2 (beginSession
          (newSession [⟨"A", ["p", "q"], 1⟩, ⟨"B", ["r", "t"], 2⟩]))).2 = 1) ∧
    ((⟨[⟨"A", ["p", "q"], 1⟩], 0, 0, .onSegment⟩ : Session).state ≠
        .awaitingTransition ∧
      advanceToNextSegment ⟨[⟨"A", ["p", "q"], 1⟩], 0, 0, .onSegment⟩ =
        (⟨[⟨"A", ["p", "q"], 1⟩], 0, 0, .onSegment⟩, some .invalidTransition)) := by
  have h1 := session_advance_contract.1
    [⟨"A", ["p", "q"], 1⟩, ⟨"B", ["r", "t"], 2⟩] (by decide)
    (by
      intro seg hseg
      fin_cases hseg
      · decide
      · decide)
  have h2 := session_advance_contract.2
    ⟨[⟨"A", ["p", "q"], 1⟩], 0, 0, .onSegment⟩ (by decide)
  exact ⟨⟨by decide,
    by
      intro seg hseg
      fin_cases hseg
      · decide
      · decide,
    h1.1, h1.2⟩, ⟨by decide, h2⟩⟩

/-! ## Theorems: Section 5 (pathfinder) -/

lemma isWalk_cons_cons (g : PFGraph) (a b : Nat) (l : List Nat) :
    isWalk g (a :: b :: l) = (decide (b ∈ g.adj a) && isWalk g (b :: l)) := rfl

lemma walkCost_cons_cons (g : PFGraph) (a b : Nat) (l : List Nat) :
    walkCost g (a :: b :: l) = g.w a b + walkCost g (b :: l) := rfl

lemma lastOf_cons_cons (a b : Nat) (l : List Nat) :
    lastOf (a :: b :: l) = lastOf (b :: l) := rfl

lemma lastOf_append_single (p : List Nat) (v : Nat) :
    lastOf (p ++ [v]) = some v := by
  induction p with
  | nil => rfl
  | cons a l ih =>
    cases l with
    | nil => rfl
    | cons b l2 =>
      rw [List.cons_append, List.cons_append, lastOf_cons_cons,
        ← List.cons_append]
      exact ih

lemma head?_append_single (p : List Nat) (v : Nat) (h : p ≠ []) :
    (p ++ [v]).head? = p.head? := by
  cases p with
  | nil => exact absurd rfl h
  | cons a l => rfl

lemma isWalk_ne_nil (g : PFGraph) (p : List Nat) (h : isWalk g p = true) :
    p ≠ [] := by
  intro hnil
  rw [hnil] at h
  exact Bool.false_ne_true h

lemma isWalk_append_single (g : PFGraph) (p : List Nat) (u v : Nat)
    (hw : isWalk g p = true) (hl : lastOf p = some u) (hadj : v ∈ g.adj u) :
    isWalk g (p ++ [v]) = true := by
  induction p with
  | nil => exact absurd hw (by simp [isWalk])
  | cons a l ih =>
    cases l with
    | nil =>
      have hu : a = u := by
        have : some a = some u := hl
        exact Option.some.inj this
      subst hu
      simp [isWalk, hadj]
    | cons b l2 =>
      rw [List.cons_append, List.cons_append, isWalk_cons_cons,
        ← List.cons_append]
      rw [isWalk_cons_cons] at hw
      simp only [Bool.and_eq_true] at hw
      rcases hw with ⟨hab, hrest⟩
      rw [lastOf_cons_cons] at hl
      rw [hab, ih hrest hl]
      rfl

lemma walkCost_append_single (g : PFGraph) (p : List Nat) (u v : Nat)
    (hl : lastOf p = some u) :
    walkCost g (p ++ [v]) = walkCost g p + g.w u v := by
  induction p with
  | nil => exact absurd hl (by simp [lastOf])
  | cons a l ih =>
    cases l with
    | nil =>
      have hu : a = u := Option.some.inj hl
      subst hu
      show g.w a v + 0 = 0 + g.w a v
      ring
    | cons b l2 =>
      rw [List.cons_append, List.cons_append, walkCost_cons_cons,
        ← List.cons_append]
      rw [lastOf_cons_cons] at hl
      rw [ih hl, walkCost_cons_cons]
      ring

lemma walk_mem_vertices (g : PFGraph) (hwf : WF g) :
    ∀ (p : List Nat), isWalk g p = true → ∀ a, p.head? = some a →
      a ∈ g.vertices → ∀ x ∈ p, x ∈ g.vertices := by
  intro p
  induction p with
  | nil => intro h; simp [isWalk] at h
  | cons a l ih =>
    intro hw b hb hbv x hx
    have hab : a = b := Option.some.inj hb
    subst hab
    cases l with
    | nil =>
      rcases List.mem_singleton.mp hx with rfl
      exact hbv
    | cons c l2 =>
      rw [isWalk_cons_cons] at hw
      simp only [Bool.and_eq_true] at hw
      rcases hw with ⟨hac, hrest⟩
      have hcv : c ∈ g.vertices :=
        hwf.adjMem a hbv c (of_decide_eq_true hac)
      rcases List.mem_cons.mp hx with rfl | hx2
      · exact hbv
      · exact ih hrest c rfl hcv x hx2

lemma walkCost_nonneg (g : PFGraph) (hwf : WF g) :
    ∀ (p : List Nat), isWalk g p = true → ∀ a, p.head? = some a →
      a ∈ g.vertices → 0 ≤ walkCost g p := by
  intro p
  induction p with
  | nil => intro h; simp [isWalk] at h
  | cons a l ih =>
    intro hw b hb hbv
    have hab : a = b := Option.some.inj hb
    subst hab
    cases l with
    | nil => simp [walkCost]
    | cons c l2 =>
      rw [isWalk_cons_cons] at hw
      simp only [Bool.and_eq_true] at hw
      rcases hw with ⟨hac, hrest⟩
      have hadj : c ∈ g.adj a := of_decide_eq_true hac
      have hcv : c ∈ g.vertices := hwf.adjMem a hbv c hadj
      have h1 : 0 ≤ g.w a c := hwf.wNonneg a hbv c hadj
      have h2 : 0 ≤ walkCost g (c :: l2) := ih hrest c rfl hcv
      rw [walkCost_cons_cons]
      linarith

lemma pickMin_cons_vis (t : Tentative) (visited : List Nat) (v : Nat)
    (vs : List Nat) (hvis : v ∈ visited) :
    pickMin t visited (v :: vs) = pickMin t visited vs := by
  conv_lhs => unfold pickMin
  rw [if_pos hvis]

lemma pickMin_cons_none (t : Tentative) (visited : List Nat) (v : Nat)
    (vs : List Nat) (hvis : v ∉ visited) (htv : t v = none) :
    pickMin t visited (v :: vs) = pickMin t visited vs := by
  conv_lhs => unfold pickMin
  rw [if_neg hvis, htv]

lemma pickMin_cons_some (t : Tentative) (visited : List Nat) (v : Nat)
    (vs : List Nat) (d : ℚ) (pv : List Nat) (hvis : v ∉ visited)
    (htv : t v = some (d, pv)) :
    pickMin t visited (v :: vs) = pickBetter v d (pickMin t visited vs) := by
  conv_lhs => unfold pickMin
  rw [if_neg hvis, htv]

lemma pickBetter_none (v : Nat) (d : ℚ) :
    pickBetter v d none = some (v, d) := rfl

lemma pickBetter_some (v : Nat) (d : ℚ) (u : Nat) (du : ℚ) :
    pickBetter v d (some (u, du)) =
      if d ≤ du then some (v, d) else some (u, du) := rfl

lemma pickMin_mem (t : Tentative) (visited : List Nat) :
    ∀ (l : List Nat) (u : Nat) (du : ℚ),
      pickMin t visited l = some (u, du) →
      u ∈ l ∧ u ∉ visited ∧ ∃ pu, t u = some (du, pu) := by
  intro l
  induction l with
  | nil => intro u du h; simp [pickMin] at h
  | cons v vs ih =>
    intro u du h
    by_cases hvis : v ∈ visited
    · rw [pickMin_cons_vis t visited v vs hvis] at h
      rcases ih u du h with ⟨h1, h2, h3⟩
      exact ⟨List.mem_cons_of_mem v h1, h2, h3⟩
    · rcases htv : t v with - | ⟨d, pv⟩
      · rw [pickMin_cons_none t visited v vs hvis htv] at h
        rcases ih u du h with ⟨h1, h2, h3⟩
        exact ⟨List.mem_cons_of_mem v h1, h2, h3⟩
      · rw [pickMin_cons_some t visited v vs d pv hvis htv] at h
        rcases hrest : pickMin t visited vs with - | ⟨u2, du2⟩
        · rw [hrest, pickBetter_none] at h
          simp only [Option.some.injEq, Prod.mk.injEq] at h
          obtain ⟨rfl, rfl⟩ := h
          exact ⟨List.mem_cons_self v vs, hvis, pv, htv⟩
        · rw [hrest, pickBetter_some] at h
          by_cases hle : d ≤ du2
          · rw [if_pos hle] at h
            simp only [Option.some.injEq, Prod.mk.injEq] at h
            obtain ⟨rfl, rfl⟩ := h
            exact ⟨List.mem_cons_self v vs, hvis, pv, htv⟩
          · rw [if_neg hle] at h
            simp only [Option.some.injEq, Prod.mk.injEq] at h
            obtain ⟨rfl, rfl⟩ := h
            rcases ih u2 du2 hrest with ⟨h1, h2, h3⟩
            exact ⟨List.mem_cons_of_mem v h1, h2, h3⟩

lemma pickMin_none (t : Tentative) (visited : List Nat) :
    ∀ (l : List Nat), pickMin t visited l = none →
      ∀ v ∈ l, v ∉ visited → t v = none := by
  intro l
  induction l with
  | nil => intro h v hv; simp at hv
  | cons v vs ih =>
    intro h x hx hxvis
    by_cases hvis : v ∈ visited
    · rw [pickMin_cons_vis t visited v vs hvis] at h
      rcases List.mem_cons.mp hx with rfl | hx2
      · exact absurd hvis hxvis
      · exact ih h x hx2 hxvis
    · rcases htv : t v with - | ⟨d, pv⟩
      · rw [pickMin_cons_none t visited v vs hvis htv] at h
        rcases List.mem_cons.mp hx with rfl | hx2
        · exact htv
        · exact ih h x hx2 hxvis
      · rw [pickMin_cons_some t visited v vs d pv hvis htv] at h
        rcases hrest : pickMin t visited vs with - | ⟨u2, du2⟩
        · rw [hrest, pickBetter_none] at h
          simp at h
        · rw [hrest, pickBetter_some] at h
          by_cases hle : d ≤ du2
          · rw [if_pos hle] at h
            simp at h
          · rw [if_neg hle] at h
            simp at h

lemma pickMin_all_visited (t : Tentative) (visited : List Nat) :
    ∀ (l : List Nat), (∀ v ∈ l, v ∈ visited) →
      pickMin t visited l = none := by
  intro l
  induction l with
  | nil => intro h; rfl
  | cons v vs ih =>
    intro h
    rw [pickMin_cons_vis t visited v vs (h v (List.mem_cons_self v vs))]
    exact ih (fun x hx => h x (List.mem_cons_of_mem v hx))

lemma pickMin_min (t : Tentative) (visited : List Nat) :
    ∀ (l : List Nat) (u : Nat) (du : ℚ),
      pickMin t visited l = some (u, du) →
      ∀ v ∈ l, v ∉ visited → ∀ d p, t v = some (d, p) → du ≤ d := by
  intro l
  induction l with
  | nil => intro u du h; simp [pickMin] at h
  | cons v vs ih =>
    intro u du h x hx hxvis d p htx
    by_cases hvis : v ∈ visited
    · rw [pickMin_cons_vis t visited v vs hvis] at h
      rcases List.mem_cons.mp hx with rfl | hx2
      · exact absurd hvis hxvis
      · exact ih u du h x hx2 hxvis d p htx
    · rcases htv : t v with - | ⟨dv, pv⟩
      · rw [pickMin_cons_none t visited v vs hvis htv] at h
        rcases List.mem_cons.mp hx with rfl | hx2
        · rw [htx] at htv
          exact absurd htv (by simp)
        · exact ih u du h x hx2 hxvis d p htx
      · rw [pickMin_cons_some t visited v vs dv pv hvis htv] at h
        rcases hrest : pickMin t visited vs with - | ⟨u2, du2⟩
        · rw [hrest, pickBetter_none] at h
          simp only [Option.some.injEq, Prod.mk.injEq] at h
          obtain ⟨rfl, rfl⟩ := h
          rcases List.mem_cons.mp hx with rfl | hx2
          · rw [htx] at htv
            simp only [Option.some.injEq, Prod.mk.injEq] at htv
            exact le_of_eq htv.1.symm
          · have hnone := pickMin_none t visited vs hrest x hx2 hxvis
            rw [htx] at hnone
            exact absurd hnone (by simp)
        · rw [hrest, pickBetter_some] at h
          by_cases hle : dv ≤ du2
          · rw [if_pos hle] at h
            simp only [Option.some.injEq, Prod.mk.injEq] at h
            obtain ⟨rfl, rfl⟩ := h
            rcases List.mem_cons.mp hx with rfl | hx2
            · rw [htx] at htv
              simp only [Option.some.injEq, Prod.mk.injEq] at htv
              exact le_of_eq htv.1.symm
            · exact le_trans hle (ih u2 du2 hrest x hx2 hxvis d p htx)
          · rw [if_neg hle] at h
            simp only [Option.some.injEq, Prod.mk.injEq] at h
            obtain ⟨rfl, rfl⟩ := h
            rcases List.mem_cons.mp hx with rfl | hx2
            · rw [htx] at htv
              simp only [Option.some.injEq, Prod.mk.injEq] at htv
              have hlt := lt_of_not_le hle
              rw [htv.1]
              linarith
            · exact ih u2 du2 hrest x hx2 hxvis d p htx

lemma updT_same (t : Tentative) (v : Nat) (e : Option (ℚ × List Nat)) :
    updT t v e v = e := by
  simp [updT]

lemma updT_other (t : Tentative) (v : Nat) (e : Option (ℚ × List Nat))
    (x : Nat) (h : x ≠ v) : updT t v e x = t x := by
  simp [updT, h]

lemma relaxOne_vis (g : PFGraph) (u : Nat) (du : ℚ) (pu : List Nat)
    (visited : List Nat) (t : Tentative) (v : Nat) (hvis : v ∈ visited) :
    relaxOne g u du pu visited t v = t := by
  unfold relaxOne
  rw [if_pos hvis]

lemma relaxOne_none (g : PFGraph) (u : Nat) (du : ℚ) (pu : List Nat)
    (visited : List Nat) (t : Tentative) (v : Nat) (hvis : v ∉ visited)
    (htv : t v = none) :
    relaxOne g u du pu visited t v =
      updT t v (some (du + g.w u v, pu ++ [v])) := by
  unfold relaxOne
  rw [if_neg hvis, htv]

lemma relaxOne_some (g : PFGraph) (u : Nat) (du : ℚ) (pu : List Nat)
    (visited : List Nat) (t : Tentative) (v : Nat) (dv : ℚ) (pv : List Nat)
    (hvis : v ∉ visited) (htv : t v = some (dv, pv)) :
    relaxOne g u du pu visited t v =
      if du + g.w u v < dv then updT t v (some (du + g.w u v, pu ++ [v]))
      else t := by
  unfold relaxOne
  rw [if_neg hvis, htv]

lemma relaxOne_cases (g : PFGraph) (u : Nat) (du : ℚ) (pu : List Nat)
    (visited : List Nat) (t : Tentative) (v x : Nat) :
    relaxOne g u du pu visited t v x = t x ∨
      (x = v ∧ x ∉ visited ∧
        relaxOne g u du pu visited t v x = some (du + g.w u x, pu ++ [x]) ∧
        ∀ dx px, t x = some (dx, px) → du + g.w u x < dx) := by
  by_cases hvis : v ∈ visited
  · rw [relaxOne_vis g u du pu visited t v hvis]
    exact Or.inl rfl
  · rcases htv : t v with - | ⟨dv, pv2⟩
    · rw [relaxOne_none g u du pu visited t v hvis htv]
      by_cases hx : x = v
      · subst hx
        refine Or.inr ⟨rfl, hvis, updT_same t x _, fun dx px hdx => ?_⟩
        rw [htv] at hdx
        exact absurd hdx (by simp)
      · rw [updT_other t v _ x hx]
        exact Or.inl rfl
    · rw [relaxOne_some g u du pu visited t v dv pv2 hvis htv]
      by_cases hlt : du + g.w u v < dv
      · rw [if_pos hlt]
        by_cases hx : x = v
        · subst hx
          refine Or.inr ⟨rfl, hvis, updT_same t x _, fun dx px hdx => ?_⟩
          rw [htv] at hdx
          simp only [Option.some.injEq, Prod.mk.injEq] at hdx
          exact hdx.1 ▸ hlt
        · rw [updT_other t v _ x hx]
          exact Or.inl rfl
      · rw [if_neg hlt]
        exact Or.inl rfl

lemma relaxAll_nil (g : PFGraph) (u : Nat) (du : ℚ) (pu : List Nat)
    (visited : List Nat) (t : Tentative) :
    relaxAll g u du pu visited [] t = t := rfl

lemma relaxAll_cons (g : PFGraph) (u : Nat) (du : ℚ) (pu : List Nat)
    (visited : List Nat) (v : Nat) (vs : List Nat) (t : Tentative) :
    relaxAll g u du pu visited (v :: vs) t =
      relaxAll g u du pu visited vs (relaxOne g u du pu visited t v) := rfl

lemma relaxAll_cases (g : PFGraph) (u : Nat) (du : ℚ) (pu : List Nat)
    (visited : List Nat) :
    ∀ (ns : List Nat) (t : Tentative) (x : Nat),
      relaxAll g u du pu visited ns t x = t x ∨
        (x ∈ ns ∧ x ∉ visited ∧
          relaxAll g u du pu visited ns t x = some (du + g.w u x, pu ++ [x]) ∧
          ∀ dx px, t x = some (dx, px) → du + g.w u x < dx) := by
  intro ns
  induction ns with
  | nil => intro t x; exact Or.inl rfl
  | cons v vs ih =>
    intro t x
    rw [relaxAll_cons]
    rcases ih (relaxOne g u du pu visited t v) x with
      h1 | ⟨hmem, hnvis, hsome, hstrict⟩
    · rw [h1]
      rcases relaxOne_cases g u du pu visited t v x with
        h2 | ⟨hxv, hnvis2, hsome2, hstrict2⟩
      · exact Or.inl h2
      · subst hxv
        exact Or.inr ⟨List.mem_cons_self x vs, hnvis2, hsome2, hstrict2⟩
    · rcases relaxOne_cases g u du pu visited t v x with
        h2 | ⟨hxv, hnvis2, hsome2, hstrict2⟩
      · rw [h2] at hstrict
        exact Or.inr ⟨List.mem_cons_of_mem v hmem, hnvis, hsome, hstrict⟩
      · exact absurd (hstrict _ _ hsome2) (lt_irrefl _)

lemma relaxAll_mono (g : PFGraph) (u : Nat) (du : ℚ) (pu : List Nat)
    (visited : List Nat) (ns : List Nat) (t : Tentative) (x : Nat)
    (dx : ℚ) (px : List Nat) (h : t x = some (dx, px)) :
    ∃ dx2 px2, relaxAll g u du pu visited ns t x = some (dx2, px2) ∧
      dx2 ≤ dx := by
  rcases relaxAll_cases g u du pu visited ns t x with
    h1 | ⟨-, -, hsome, hstrict⟩
  · exact ⟨dx, px, by rw [h1, h], le_refl dx⟩
  · exact ⟨du + g.w u x, pu ++ [x], hsome, (hstrict dx px h).le⟩

lemma relaxAll_frozen (g : PFGraph) (u : Nat) (du : ℚ) (pu : List Nat)
    (visited : List Nat) (ns : List Nat) (t : Tentative) (x : Nat)
    (hx : x ∈ visited) :
    relaxAll g u du pu visited ns t x = t x := by
  rcases relaxAll_cases g u du pu visited ns t x with h1 | ⟨-, hnvis, -, -⟩
  · exact h1
  · exact absurd hx hnvis

lemma relaxAll_self (g : PFGraph) (hwf : WF g) (u : Nat) (du : ℚ)
    (pu : List Nat) (visited : List Nat) (t : Tentative)
    (hu : u ∈ g.vertices) (htu : t u = some (du, pu)) :
    relaxAll g u du pu visited (g.adj u) t u = some (du, pu) := by
  rcases relaxAll_cases g u du pu visited (g.adj u) t u with
    h1 | ⟨hmem, -, -, hstrict⟩
  · rw [h1, htu]
  · have h0 := hwf.wNonneg u hu u hmem
    have h2 := hstrict du pu htu
    linarith

lemma relaxOne_at (g : PFGraph) (u : Nat) (du : ℚ) (pu : List Nat)
    (visited : List Nat) (t : Tentative) (v : Nat) (hvis : v ∉ visited) :
    ∃ dv pv2, relaxOne g u du pu visited t v v = some (dv, pv2) ∧
      dv ≤ du + g.w u v := by
  rcases htv : t v with - | ⟨dv0, pv0⟩
  · rw [relaxOne_none g u du pu visited t v hvis htv, updT_same]
    exact ⟨du + g.w u v, pu ++ [v], rfl, le_refl _⟩
  · rw [relaxOne_some g u du pu visited t v dv0 pv0 hvis htv]
    by_cases hlt : du + g.w u v < dv0
    · rw [if_pos hlt, updT_same]
      exact ⟨du + g.w u v, pu ++ [v], rfl, le_refl _⟩
    · rw [if_neg hlt, htv]
      exact ⟨dv0, pv0, rfl, le_of_not_lt hlt⟩

lemma relaxAll_bound (g : PFGraph) (u : Nat) (du : ℚ) (pu : List Nat)
    (visited : List Nat) :
    ∀ (ns : List Nat) (t : Tentative) (x : Nat), x ∈ ns → x ∉ visited →
      ∃ dx px, relaxAll g u du pu visited ns t x = some (dx, px) ∧
        dx ≤ du + g.w u x := by
  intro ns
  induction ns with
  | nil =>
    intro t x hx
    simp at hx
  | cons v vs ih =>
    intro t x hx hxvis
    rw [relaxAll_cons]
    rcases List.mem_cons.mp hx with rfl | hx2
    · rcases relaxOne_at g u du pu visited t x hxvis with ⟨dv, pv2, hsome, hle⟩
      rcases relaxAll_mono g u du pu visited vs _ x dv pv2 hsome with
        ⟨dx2, px2, hsome2, hle2⟩
      exact ⟨dx2, px2, hsome2, le_trans hle2 hle⟩
    · exact ih (relaxOne g u du pu visited t v) x hx2 hxvis

lemma dijkstraInv_init (g : PFGraph) (s : Nat)
    (hs : s ∈ g.vertices) : DijkstraInv g s (initT s) [] := by
  refine ⟨hs, ?_, ?_, List.nodup_nil, ?_, ?_, ?_, ?_, ?_⟩
  · intro v d p h
    unfold initT at h
    by_cases hv : v = s
    · subst hv
      exact hs
    · rw [if_neg hv] at h
      exact absurd h (by simp)
  · intro v hv
    simp at hv
  · intro v hv
    simp at hv
  · intro v d p h
    unfold initT at h
    by_cases hv : v = s
    · subst hv
      rw [if_pos rfl] at h
      simp only [Option.some.injEq, Prod.mk.injEq] at h
      obtain ⟨rfl, rfl⟩ := h
      exact ⟨rfl, rfl, rfl, rfl⟩
    · rw [if_neg hv] at h
      exact absurd h (by simp)
  · unfold initT
    rw [if_pos rfl]
  · intro a ha
    simp at ha
  · intro a ha
    simp at ha

lemma dijkstraStep_inv (g : PFGraph) (hwf : WF g) (s : Nat) (t : Tentative)
    (visited : List Nat) (u : Nat) (du : ℚ) (pu : List Nat)
    (hinv : DijkstraInv g s t visited)
    (hpick : pickMin t visited g.vertices = some (u, du))
    (htu : t u = some (du, pu)) :
    DijkstraInv g s (relaxAll g u du pu visited (g.adj u) t)
      (visited ++ [u]) := by
  obtain ⟨huv, hunvis, -⟩ := pickMin_mem t visited g.vertices u du hpick
  have hwit := hinv.witness u du pu htu
  have hdu0 : 0 ≤ du := by
    have h0 := walkCost_nonneg g hwf pu hwit.1 s hwit.2.1 hinv.startMem
    rw [hwit.2.2.2] at h0
    exact h0
  refine ⟨hinv.startMem, ?_, ?_, ?_, ?_, ?_, ?_, ?_, ?_⟩
  · -- mem
    intro v d p h
    rcases relaxAll_cases g u du pu visited (g.adj u) t v with h1 | ⟨hmem, -, -, -⟩
    · rw [h1] at h
      exact hinv.mem v d p h
    · exact hwf.adjMem u huv v hmem
  · -- visMem
    intro v hv
    rcases List.mem_append.mp hv with h1 | h2
    · exact hinv.visMem v h1
    · rw [List.mem_singleton] at h2
      subst h2
      exact huv
  · -- visNodup
    rw [List.nodup_append]
    refine ⟨hinv.visNodup, List.nodup_singleton u, ?_⟩
    intro x hx hx2
    rw [List.mem_singleton] at hx2
    subst hx2
    exact hunvis hx
  · -- visSome
    intro v hv
    rcases List.mem_append.mp hv with h1 | h2
    · obtain ⟨d, p, hd⟩ := hinv.visSome v h1
      obtain ⟨d2, p2, hsome, -⟩ :=
        relaxAll_mono g u du pu visited (g.adj u) t v d p hd
      exact ⟨d2, p2, hsome⟩
    · rw [List.mem_singleton] at h2
      rw [h2]
      exact ⟨du, pu, relaxAll_self g hwf u du pu visited t huv htu⟩
  · -- witness
    intro v d p h
    rcases relaxAll_cases g u du pu visited (g.adj u) t v with
      h1 | ⟨hmem, -, hsome, -⟩
    · rw [h1] at h
      exact hinv.witness v d p h
    · rw [hsome] at h
      simp only [Option.some.injEq, Prod.mk.injEq] at h
      obtain ⟨rfl, rfl⟩ := h
      refine ⟨isWalk_append_single g pu u v hwit.1 hwit.2.2.1 hmem, ?_,
        lastOf_append_single pu v, ?_⟩
      · rw [head?_append_single pu v (isWalk_ne_nil g pu hwit.1)]
        exact hwit.2.1
      · rw [walkCost_append_single g pu u v hwit.2.2.1, hwit.2.2.2]
  · -- startEntry
    rcases relaxAll_cases g u du pu visited (g.adj u) t s with
      h1 | ⟨hmem, -, -, hstrict⟩
    · rw [h1]
      exact hinv.startEntry
    · have h2 := hstrict 0 [s] hinv.startEntry
      have hw0 := hwf.wNonneg u huv s hmem
      linarith
  · -- ordered
    intro a ha b hb da pa db pb hta htb
    have hbnv : b ∉ visited := fun hbv => hb (List.mem_append.mpr (Or.inl hbv))
    rcases List.mem_append.mp ha with ha1 | ha2
    · -- a previously settled
      have hta2 : t a = some (da, pa) := by
        rw [← relaxAll_frozen g u du pu visited (g.adj u) t a ha1]
        exact hta
      rcases relaxAll_cases g u du pu visited (g.adj u) t b with
        h1 | ⟨hmemb, -, hsomeb, -⟩
      · rw [h1] at htb
        exact hinv.ordered a ha1 b hbnv da pa db pb hta2 htb
      · rw [hsomeb] at htb
        simp only [Option.some.injEq, Prod.mk.injEq] at htb
        have hle : da ≤ du := hinv.ordered a ha1 u hunvis da pa du pu hta2 htu
        have hw0 := hwf.wNonneg u huv b hmemb
        rw [← htb.1]
        linarith
    · -- a = u, the point being settled
      rw [List.mem_singleton] at ha2
      subst ha2
      have hself := relaxAll_self g hwf a du pu visited t huv htu
      rw [hself] at hta
      simp only [Option.some.injEq, Prod.mk.injEq] at hta
      obtain ⟨rfl, rfl⟩ := hta
      rcases relaxAll_cases g a du pu visited (g.adj a) t b with
        h1 | ⟨hmemb, -, hsomeb, -⟩
      · rw [h1] at htb
        exact pickMin_min t visited g.vertices a du hpick b
          (hinv.mem b db pb htb) hbnv db pb htb
      · rw [hsomeb] at htb
        simp only [Option.some.injEq, Prod.mk.injEq] at htb
        have hw0 := hwf.wNonneg a huv b hmemb
        rw [← htb.1]
        linarith
  · -- relaxed
    intro a ha v hv da pa hta
    rcases List.mem_append.mp ha with ha1 | ha2
    · have hta2 : t a = some (da, pa) := by
        rw [← relaxAll_frozen g u du pu visited (g.adj u) t a ha1]
        exact hta
      obtain ⟨dv, pv, hdv, hle⟩ := hinv.relaxed a ha1 v hv da pa hta2
      obtain ⟨dv2, pv2, hsome2, hle2⟩ :=
        relaxAll_mono g u du pu visited (g.adj u) t v dv pv hdv
      exact ⟨dv2, pv2, hsome2, le_trans hle2 hle⟩
    · rw [List.mem_singleton] at ha2
      subst ha2
      have hself := relaxAll_self g hwf a du pu visited t huv htu
      rw [hself] at hta
      simp only [Option.some.injEq, Prod.mk.injEq] at hta
      obtain ⟨rfl, rfl⟩ := hta
      by_cases hvv : v ∈ visited
      · obtain ⟨dv, pv, hdv⟩ := hinv.visSome v hvv
        have hle : dv ≤ du := hinv.ordered v hvv a hunvis dv pv du pu hdv htu
        have hw0 := hwf.wNonneg a huv v hv
        refine ⟨dv, pv, ?_, by linarith⟩
        rw [relaxAll_frozen g a du pu visited (g.adj a) t v hvv]
        exact hdv
      · exact relaxAll_bound g a du pu visited (g.adj a) t v hv hvv

lemma dijkstraLoop_zero (g : PFGraph) (t : Tentative) (visited : List Nat) :
    dijkstraLoop g 0 t visited = (t, visited) := rfl

lemma dijkstraLoop_succ_none (g : PFGraph) (fuel : Nat) (t : Tentative)
    (visited : List Nat) (hpick : pickMin t visited g.vertices = none) :
    dijkstraLoop g (fuel + 1) t visited = (t, visited) := by
  conv_lhs => unfold dijkstraLoop
  rw [hpick]

lemma dijkstraLoop_succ_some (g : PFGraph) (fuel : Nat) (t : Tentative)
    (visited : List Nat) (u : Nat) (du : ℚ)
    (hpick : pickMin t visited g.vertices = some (u, du)) :
    dijkstraLoop g (fuel + 1) t visited =
      settlePoint g (dijkstraLoop g fuel) t visited u du := by
  conv_lhs => unfold dijkstraLoop
  rw [hpick]

lemma settlePoint_some (g : PFGraph)
    (next : Tentative → List Nat → Tentative × List Nat)
    (t : Tentative) (visited : List Nat) (u : Nat) (du d0 : ℚ) (pu : List Nat)
    (htu : t u = some (d0, pu)) :
    settlePoint g next t visited u du =
      next (relaxAll g u du pu visited (g.adj u) t) (visited ++ [u]) := by
  unfold settlePoint
  rw [htu]

lemma dijkstraLoop_invariant (g : PFGraph) (hwf : WF g) (s : Nat) :
    ∀ (fuel : Nat) (t : Tentative) (visited : List Nat),
      DijkstraInv g s t visited →
      g.vertices.length ≤ fuel + visited.length →
      DijkstraInv g s (dijkstraLoop g fuel t visited).1
          (dijkstraLoop g fuel t visited).2 ∧
        pickMin (dijkstraLoop g fuel t visited).1
          (dijkstraLoop g fuel t visited).2 g.vertices = none := by
  intro fuel
  induction fuel with
  | zero =>
    intro t visited hinv hlen
    rw [dijkstraLoop_zero]
    refine ⟨hinv, pickMin_all_visited t visited g.vertices ?_⟩
    intro v hv
    have hsub : visited.toFinset ⊆ g.vertices.toFinset := by
      intro x hx
      rw [List.mem_toFinset] at hx ⊢
      exact hinv.visMem x hx
    have hcard1 : visited.toFinset.card = visited.length :=
      List.toFinset_card_of_nodup hinv.visNodup
    have hcard2 : g.vertices.toFinset.card ≤ visited.toFinset.card := by
      have h3 := List.toFinset_card_le g.vertices
      omega
    have heq := Finset.eq_of_subset_of_card_le hsub hcard2
    have hv2 : v ∈ g.vertices.toFinset := List.mem_toFinset.mpr hv
    rw [← heq] at hv2
    exact List.mem_toFinset.mp hv2
  | succ fuel ih =>
    intro t visited hinv hlen
    rcases hpick : pickMin t visited g.vertices with - | ⟨u, du⟩
    · rw [dijkstraLoop_succ_none g fuel t visited hpick]
      exact ⟨hinv, hpick⟩
    · obtain ⟨huv, hunvis, pu, htu⟩ := pickMin_mem t visited g.vertices u du hpick
      rw [dijkstraLoop_succ_some g fuel t visited u du hpick,
        settlePoint_some g (dijkstraLoop g fuel) t visited u du du pu htu]
      refine ih _ _ (dijkstraStep_inv g hwf s t visited u du pu hinv hpick htu) ?_
      rw [List.length_append, List.length_singleton]
      omega

lemma dijkstra_reach_bound (g : PFGraph) (s : Nat) (t : Tentative)
    (visited : List Nat) (hinv : DijkstraInv g s t visited)
    (hterm : pickMin t visited g.vertices = none) :
    ∀ (p : List Nat), isWalk g p = true →
      ∀ (u v : Nat) (du : ℚ) (pu : List Nat),
        p.head? = some u → lastOf p = some v → t u = some (du, pu) →
        ∃ dv pv, t v = some (dv, pv) ∧ dv ≤ du + walkCost g p := by
  intro p
  induction p with
  | nil =>
    intro h
    simp [isWalk] at h
  | cons a l ih =>
    intro hw u v du pu hu hv htu
    have hau : a = u := Option.some.inj hu
    subst hau
    cases l with
    | nil =>
      have hv2 : a = v := Option.some.inj hv
      subst hv2
      refine ⟨du, pu, htu, ?_⟩
      show du ≤ du + walkCost g [a]
      simp [walkCost]
    | cons b l2 =>
      rw [isWalk_cons_cons] at hw
      simp only [Bool.and_eq_true] at hw
      rcases hw with ⟨hab, hrest⟩
      have hadj : b ∈ g.adj a := of_decide_eq_true hab
      have hav : a ∈ g.vertices := hinv.mem a du pu htu
      have havis : a ∈ visited := by
        by_contra hnv
        have h2 := pickMin_none t visited g.vertices hterm a hav hnv
        rw [htu] at h2
        exact absurd h2 (by simp)
      obtain ⟨db, pb, htb, hleb⟩ := hinv.relaxed a havis b hadj du pu htu
      rw [lastOf_cons_cons] at hv
      obtain ⟨dv, pv, htv, hlev⟩ := ih hrest b v db pb rfl hv htb
      refine ⟨dv, pv, htv, ?_⟩
      rw [walkCost_cons_cons]
      linarith

/-- C1: over every well-formed floor graph (non-negative symmetric derived
weights, valid undirected connections, no duplicate points) and every
reachable pair, `shortestPath` succeeds with a walk from start to end whose
summed consecutive-edge weights equal the reported total distance, and no
simple path (indeed no walk) between the two points has a strictly smaller
total distance. -/
theorem shortestPath_optimal (g : PFGraph) (hwf : WF g) (a b : Nat)
    (ha : a ∈ g.vertices) (hb : b ∈ g.vertices)
    (hreach : ∃ p, isWalk g p = true ∧ p.head? = some a ∧ lastOf p = some b) :
    ∃ (path : List Nat) (total : ℚ),
      shortestPath g a b = .ok (path, total) ∧
      isWalk g path = true ∧ path.head? = some a ∧ lastOf path = some b ∧
      walkCost g path = total ∧
      ∀ q, isWalk g q = true → q.Nodup → q.head? = some a →
        lastOf q = some b → total ≤ walkCost g q := by
  obtain ⟨hinvF, htermF⟩ := dijkstraLoop_invariant g hwf a g.vertices.length
    (initT a) [] (dijkstraInv_init g a ha) (by simp)
  obtain ⟨p0, hw0, hh0, hl0⟩ := hreach
  obtain ⟨db, pb, htb, hleb⟩ := dijkstra_reach_bound g a _ _ hinvF htermF p0
    hw0 a b 0 [a] hh0 hl0 hinvF.startEntry
  have hsp : shortestPath g a b = .ok (pb, db) := by
    unfold shortestPath
    rw [if_pos ha, if_pos hb, htb]
  have hwit := hinvF.witness b db pb htb
  refine ⟨pb, db, hsp, hwit.1, hwit.2.1, hwit.2.2.1, hwit.2.2.2, ?_⟩
  intro q hwq hnd hhq hlq
  obtain ⟨db2, pb2, htb2, hleb2⟩ := dijkstra_reach_bound g a _ _ hinvF htermF q
    hwq a b 0 [a] hhq hlq hinvF.startEntry
  rw [htb] at htb2
  simp only [Option.some.injEq, Prod.mk.injEq] at htb2
  rw [htb2.1]
  linarith

/-- C7: for any valid point of a well-formed floor graph, `shortestPath`
from the point to itself succeeds and returns the single-point path with
total distance 0. -/
theorem shortestPath_self_zero (g : PFGraph) (hwf : WF g) (a : Nat)
    (ha : a ∈ g.vertices) : shortestPath g a a = .ok ([a], 0) := by
  obtain ⟨hinvF, -⟩ := dijkstraLoop_invariant g hwf a g.vertices.length
    (initT a) [] (dijkstraInv_init g a ha) (by simp)
  unfold shortestPath
  rw [if_pos ha, if_pos ha, hinvF.startEntry]

lemma demoGraph_wf : WF demoGraph :=
  ⟨by decide, by decide, by decide, by decide, by decide⟩

/-- C1 witness: the three-point line graph, from one end to the other. -/
theorem shortestPath_optimal_witness :
    WF demoGraph ∧ 0 ∈ demoGraph.vertices ∧ 2 ∈ demoGraph.vertices ∧
    (∃ p, isWalk demoGraph p = true ∧ p.head? = some 0 ∧ lastOf p = some 2) ∧
    (∃ (path : List Nat) (total : ℚ),
      shortestPath demoGraph 0 2 = .ok (path, total) ∧
      isWalk demoGraph path = true ∧ path.head? = some 0 ∧
      lastOf path = some 2 ∧ walkCost demoGraph path = total ∧
      ∀ q, isWalk demoGraph q = true → q.Nodup → q.head? = some 0 →
        lastOf q = some 2 → total ≤ walkCost demoGraph q) :=
  ⟨demoGraph_wf, by decide, by decide, ⟨[0, 1, 2], by decide, rfl, rfl⟩,
    shortestPath_optimal demoGraph demoGraph_wf 0 2 (by decide) (by decide)
      ⟨[0, 1, 2], by decide, rfl, rfl⟩⟩

/-- C7 witness: the middle point of the three-point line graph. -/
theorem shortestPath_self_zero_witness :
    WF demoGraph ∧ 1 ∈ demoGraph.vertices ∧
    shortestPath demoGraph 1 1 = .ok ([1], 0) :=
  ⟨demoGraph_wf, by decide,
    shortestPath_self_zero demoGraph demoGraph_wf 1 (by decide)⟩

end IndoorNav
